import Mathlib

/-!
# CrunchyNav — shallow embedding and verification

This file embeds the CrunchyNav browser extension (content scripts
`nav.js` / `pageLoad.js` and the current per-page variant) in Lean 4 and
proves properties of the embedding.

The DOM is modelled as a rose tree of elements carrying the attributes the
scripts read or write: tag name, the class attribute, the `data-t`
attribute, `href`, `style.display` and `style.border`.  Queries return
(path, element) pairs, where a path is the list of child indices from the
document body; DOM mutation is rebuilding the tree at a path.  JavaScript
functions that can return `false` or `undefined` are given a three-valued
result type `Js`; statements that would throw a `TypeError` (property
access on `false`/`undefined`) are modelled with `Except String`, the
error value standing for the thrown exception.
-/

/- A DOM element: tag, className, data-t attribute, href, style.display,
style.border, and the list of child elements.  `Elem`/`ElemList` are a
mutual pair (instead of `List Elem`) so that all recursions are structural
and kernel-reducible. -/
mutual
inductive Elem : Type where
  | mk (tag className dataT href display border : String) (children : ElemList) : Elem
inductive ElemList : Type where
  | nil : ElemList
  | cons (e : Elem) (es : ElemList) : ElemList
end

def Elem.tag : Elem → String | .mk t _ _ _ _ _ _ => t

def Elem.className : Elem → String | .mk _ c _ _ _ _ _ => c

def Elem.dataT : Elem → String | .mk _ _ d _ _ _ _ => d

def Elem.href : Elem → String | .mk _ _ _ h _ _ _ => h

def Elem.display : Elem → String | .mk _ _ _ _ d _ _ => d

def Elem.border : Elem → String | .mk _ _ _ _ _ b _ => b

def Elem.children : Elem → ElemList | .mk _ _ _ _ _ _ cs => cs

def ElemList.toList : ElemList → List Elem
  | .nil => []
  | .cons e es => e :: es.toList

/-- Build an `ElemList` from a list literal. -/
def EL : List Elem → ElemList
  | [] => .nil
  | e :: es => .cons e (EL es)

def emptyElem : Elem := .mk "" "" "" "" "" "" .nil

/- Boolean equality on elements (needed for a `DecidableEq` instance,
which `deriving` cannot produce for this mutual pair). -/
mutual
def beqE : Elem → Elem → Bool
  | .mk t c d h dis b cs, .mk t2 c2 d2 h2 dis2 b2 cs2 =>
      t == t2 && c == c2 && d == d2 && h == h2 && dis == dis2 && b == b2 && beqL cs cs2
def beqL : ElemList → ElemList → Bool
  | .nil, .nil => true
  | .cons e es, .cons f fs => beqE e f && beqL es fs
  | .nil, .cons _ _ => false
  | .cons _ _, .nil => false
end

mutual
theorem beqE_eq : ∀ a b : Elem, beqE a b = true → a = b
  | .mk t c d h dis b cs, .mk t2 c2 d2 h2 dis2 b2 cs2, hp => by
    simp only [beqE, Bool.and_eq_true, beq_iff_eq] at hp
    obtain ⟨⟨⟨⟨⟨⟨h1, h2'⟩, h3⟩, h4⟩, h5⟩, h6⟩, h7⟩ := hp
    have hcs := beqL_eq cs cs2 h7
    subst h1 h2' h3 h4 h5 h6 hcs
    rfl
theorem beqL_eq : ∀ a b : ElemList, beqL a b = true → a = b
  | .nil, .nil, _ => rfl
  | .cons e es, .cons f fs, hp => by
    simp only [beqL, Bool.and_eq_true] at hp
    have h1 := beqE_eq e f hp.1
    have h2 := beqL_eq es fs hp.2
    rw [h1, h2]
  | .nil, .cons _ _, hp => by simp [beqL] at hp
  | .cons _ _, .nil, hp => by simp [beqL] at hp
end

mutual
theorem beqE_refl : ∀ a : Elem, beqE a a = true
  | .mk _ _ _ _ _ _ cs => by simp [beqE, beqL_refl cs]
theorem beqL_refl : ∀ a : ElemList, beqL a a = true
  | .nil => rfl
  | .cons e es => by simp [beqL, beqE_refl e, beqL_refl es]
end

instance : DecidableEq Elem := fun a b =>
  if h : beqE a b = true then .isTrue (beqE_eq a b h)
  else .isFalse (fun he => h (he ▸ beqE_refl a))

instance : DecidableEq ElemList := fun a b =>
  if h : beqL a b = true then .isTrue (beqL_eq a b h)
  else .isFalse (fun he => h (he ▸ beqL_refl a))

/- Pre-order traversal of an element subtree: the element itself (at path
`[k]`, `k` being its index among its siblings) followed by all of its
descendants, each with the path of child indices leading to it.  This is
document order, the order in which `getElementsByClassName` and
`querySelectorAll` return matches. -/
mutual
def dwpE : Elem → Nat → List (List Nat × Elem)
  | .mk t c d h dis b cs, k =>
      ([k], Elem.mk t c d h dis b cs) :: (dwpL cs 0).map (fun q => (k :: q.1, q.2))
def dwpL : ElemList → Nat → List (List Nat × Elem)
  | .nil, _ => []
  | .cons e es, k => dwpE e k ++ dwpL es (k + 1)
end

/- Rebuild a tree, applying `f` to the node at the given child-index path
(`[]` is the node itself); an out-of-range path leaves the tree unchanged,
matching the fact that the scripts only mutate nodes they have just
located. -/
mutual
def modE : Elem → List Nat → (Elem → Elem) → Elem
  | e, [], f => f e
  | .mk t c d h dis b cs, i :: p, f => .mk t c d h dis b (modL cs i p f)
def modL : ElemList → Nat → List Nat → (Elem → Elem) → ElemList
  | .nil, _, _, _ => .nil
  | .cons c rest, 0, p, f => .cons (modE c p f) rest
  | .cons c rest, Nat.succ i, p, f => .cons c (modL rest i p f)
end

def setBorder (v : String) : Elem → Elem
  | .mk t c d h dis _ cs => .mk t c d h dis v cs

def setDisplay (v : String) : Elem → Elem
  | .mk t c d h _ b cs => .mk t c d h v b cs

/- Erase all presentation style (display and border) everywhere; two
trees with the same `stripStyleE` image have identical structure,
attributes and text-independent content, differing at most in styling. -/
mutual
def stripStyleE : Elem → Elem
  | .mk t c d h _ _ cs => .mk t c d h "" "" (stripStyleL cs)
def stripStyleL : ElemList → ElemList
  | .nil => .nil
  | .cons e es => .cons (stripStyleE e) (stripStyleL es)
end

/-- `pat.isPrefixC hay`: the JS substring-at-position-0 test. -/
def isPrefixC : List Char → List Char → Bool
  | [], _ => true
  | _ :: _, [] => false
  | a :: as, b :: bs => a == b && isPrefixC as bs

/-- Substring occurrence on character lists. -/
def listIncludes (pat : List Char) : List Char → Bool
  | [] => pat.isEmpty
  | c :: rest => isPrefixC pat (c :: rest) || listIncludes pat rest

/-- `String.prototype.includes`: `jsIncludes s pat` is true iff `pat`
occurs as a contiguous substring of `s`. -/
def jsIncludes (s pat : String) : Bool := listIncludes pat.data s.data

def splitSpacesAux : List Char → List Char → List (List Char)
  | [], acc => [acc.reverse]
  | ' ' :: rest, acc => acc.reverse :: splitSpacesAux rest []
  | c :: rest, acc => splitSpacesAux rest (c :: acc)

/-- Class-token membership: the matching rule of `getElementsByClassName`
(the class attribute, split on spaces, contains the token). -/
def hasClassTok (e : Elem) (cls : String) : Bool :=
  (splitSpacesAux e.className.data []).contains cls.data

/-- All descendants of `body` (document order, with paths) whose class
attribute contains the token `cls`: `document.body.getElementsByClassName`. -/
def queryAllClass (body : Elem) (cls : String) : List (List Nat × Elem) :=
  (dwpL body.children 0).filter (fun q => hasClassTok q.2 cls)

/-- A JavaScript value that is either a proper value, the literal `false`,
or `undefined`.  `val` is the only truthy case; only `jsFalse` satisfies a
loose `== false` comparison (`undefined == false` is false in JS). -/
inductive Js (α : Type) : Type where
  | val (a : α) : Js α
  | jsFalse : Js α
  | undef : Js α
deriving DecidableEq

/-- JS loose equality against the literal `false`. -/
def Js.eqFalse : Js α → Bool
  | .jsFalse => true
  | _ => false

def isOkB : Except String α → Bool
  | .ok _ => true
  | .error _ => false

deriving instance DecidableEq for Except

/-- Child `i` of an element (`e.children[i]`), with a dummy default that
is never reached on the in-range accesses the scripts perform. -/
def childD (e : Elem) (i : Nat) : Elem := e.children.toList.getD i emptyElem

/-- `getErcFeed` (nav.js / part_000, identical in both): find the first
element with class `erc-feed`; fail (return `false`, modelled `none`) if
there is none, if it does not have exactly 3 children, or if its second
child's class attribute does not contain `dynamic-feed-wrapper`.
On success the validated feed element is returned together with its path. -/
def getErcFeed (body : Elem) : Option (List Nat × Elem) :=
  match queryAllClass body "erc-feed" with
  | [] => none
  | (fp, feed) :: _ =>
    if feed.children.toList.length != 3 then none
    else if !(jsIncludes (childD feed 1).className "dynamic-feed-wrapper") then none
    else some (fp, feed)

/-- One iteration of the `cleanDynamicFeed` loop body: hide the category
iff it fails the first-match policy (child count ≠ 1; sole child carries
the news/editorial marker; sole child's child count ≠ 2). -/
def cleanCategory (category : Elem) : Elem :=
  if category.children.toList.length != 1 then setDisplay "none" category
  else if jsIncludes (childD category 0).className "news-and-editorial" then
    setDisplay "none" category
  else if (childD category 0).children.toList.length != 2 then setDisplay "none" category
  else category

/-- The `cleanDynamicFeed` loop, `for (let i = 0; i < children.length - 1; i++)`:
the loop bound stops one short of the final child, so the last child is
never examined. -/
def cleanChildren : ElemList → ElemList
  | .nil => .nil
  | .cons c .nil => .cons c .nil
  | .cons c (.cons c2 rest) => .cons (cleanCategory c) (cleanChildren (.cons c2 rest))

def cleanFeedElem : Elem → Elem
  | .mk t c d h dis b cs => .mk t c d h dis b (cleanChildren cs)

/-- `cleanDynamicFeed` (part_000 variant, which hides instead of
removing).  When `getErcFeed` has returned `false`, the following
`children[1]` yields `undefined` and `undefined.children` throws a
`TypeError`. -/
def cleanDynamicFeed (body : Elem) : Except String Elem :=
  match getErcFeed body with
  | none => .error "TypeError"
  | some (fp, _) => .ok (modE body (fp ++ [1]) cleanFeedElem)

/-- `getDynamicFeed` (part_000): the children of the dynamic-feed region,
iterated with the same `i < length - 1` bound, keeping those whose
`style.display` is not `none`. -/
def getDynamicFeed (body : Elem) : Except String (List (List Nat × Elem)) :=
  match getErcFeed body with
  | none => .error "TypeError"
  | some (fp, feed) =>
    let dynamicFeedChildren := (childD feed 1).children.toList
    .ok (((List.range (dynamicFeedChildren.length - 1)).filter
            (fun i => (dynamicFeedChildren.getD i emptyElem).display != "none")).map
          (fun i => (fp ++ [1, i], dynamicFeedChildren.getD i emptyElem)))

/-- `hideHeroBanner`: hide the first child of the feed when its class
attribute is empty; throws a `TypeError` when `getErcFeed` failed. -/
def hideHeroBanner (body : Elem) : Except String Elem :=
  match getErcFeed body with
  | none => .error "TypeError"
  | some (fp, feed) =>
    if (childD feed 0).className == "" then .ok (modE body (fp ++ [0]) (setDisplay "none"))
    else .ok body

/-- `initiateFeedObserver`: registering the mutation observer on the
dynamic-feed region.  The registration itself does not change the tree;
`observe(undefined, …)` throws a `TypeError` when `getErcFeed` failed. -/
def initiateFeedObserver (body : Elem) : Except String Unit :=
  match getErcFeed body with
  | none => .error "TypeError"
  | some _ => .ok ()

/-- `getRows` (part_000): the visible dynamic-feed entries, or `false`
(modelled `none`) when there are none. -/
def getRows (body : Elem) : Except String (Option (List (List Nat × Elem))) :=
  match getDynamicFeed body with
  | .error e => .error e
  | .ok rows => if rows.length == 0 then .ok none else .ok (some rows)

/-- `getRow`: `false` when there are no rows or the index is too high,
the first row for index `-1`, `undefined` (`rows[i]` below `-1`) for
other negative indices, else the row at the index. -/
def getRow (body : Elem) (rowIndex : Int) : Except String (Js (List Nat × Elem)) :=
  match getRows body with
  | .error e => .error e
  | .ok none => .ok .jsFalse
  | .ok (some rows) =>
    if rowIndex > (rows.length : Int) - 1 then .ok .jsFalse
    else if rowIndex == -1 then .ok (.val (rows.getD 0 ([], emptyElem)))
    else if rowIndex < -1 then .ok .undef
    else .ok (.val (rows.getD rowIndex.toNat ([], emptyElem)))

/-- `getColumns`: the `[data-t="carousel-card-wrapper"]` descendants of
the resolved row, or `false` when the row is `false` or no card is found.
An `undefined` row passes the `row == false` test and then throws on
`row.querySelectorAll`. -/
def getColumns (body : Elem) (rowIndex : Int) : Except String (Js (List (List Nat × Elem))) :=
  match getRow body rowIndex with
  | .error e => .error e
  | .ok .jsFalse => .ok .jsFalse
  | .ok .undef => .error "TypeError"
  | .ok (.val (rowPath, row)) =>
    if (((dwpL row.children 0).filter
        (fun q => q.2.dataT == "carousel-card-wrapper")).map
          (fun q => (rowPath ++ q.1, q.2))).length == 0 then .ok .jsFalse
    else .ok (.val (((dwpL row.children 0).filter
        (fun q => q.2.dataT == "carousel-card-wrapper")).map (fun q => (rowPath ++ q.1, q.2))))

/-- `getColumn`: same defaulting/out-of-range policy as `getRow`, applied
to the card list of the resolved row. -/
def getColumn (body : Elem) (rowIndex columnIndex : Int) : Except String (Js (List Nat × Elem)) :=
  match getColumns body rowIndex with
  | .error e => .error e
  | .ok .jsFalse => .ok .jsFalse
  | .ok .undef => .error "TypeError"
  | .ok (.val columns) =>
    if columnIndex > (columns.length : Int) - 1 then .ok .jsFalse
    else if columnIndex == -1 then .ok (.val (columns.getD 0 ([], emptyElem)))
    else if columnIndex < -1 then .ok .undef
    else .ok (.val (columns.getD columnIndex.toNat ([], emptyElem)))

/-- The global cursor: `selectedRow` and `selectedColumn`. -/
structure NavState where
  row : Int
  col : Int
deriving DecidableEq

def setBorderAt (body : Elem) (p : List Nat) (v : String) : Elem := modE body p (setBorder v)

/-- `highlightCard`: clear the border of the card at the current cursor
(if one resolves), then resolve the new target; if the new card is truthy,
set its border, commit the cursor (negative components normalised to 0)
and consume the event (`e.preventDefault()`), reported as the `Bool` of
the result.  Returns the updated document, cursor and consumed flag.
`scrollIntoView` is a pure presentation effect and is not modelled. -/
def clearOldCard (body : Elem) (oldCard : Js (List Nat × Elem)) : Elem :=
  match oldCard with
  | .val (p, _) => setBorderAt body p ""
  | _ => body

def highlightCard (body : Elem) (s : NavState) (newRow newColumn : Int) :
    Except String (Elem × NavState × Bool) :=
  match getColumn body s.row s.col with
  | .error e => .error e
  | .ok oldCard =>
    match getColumn (clearOldCard body oldCard) newRow newColumn with
    | .error e => .error e
    | .ok (.val (q, _)) =>
        .ok (setBorderAt (clearOldCard body oldCard) q "1px solid white",
             ⟨if newRow < 0 then 0 else newRow, if newColumn < 0 then 0 else newColumn⟩,
             true)
    | .ok _ => .ok (clearOldCard body oldCard, s, false)

/-- `previousRow` (ArrowUp). -/
def previousRow (body : Elem) (s : NavState) : Except String (Elem × NavState × Bool) :=
  if s.row == 0 then .ok (body, s, false)
  else
    match getRow body (if s.row == -1 then 0 else s.row - 1) with
    | .error e => .error e
    | .ok row =>
      if row.eqFalse then .ok (body, s, false)
      else highlightCard body s (if s.row == -1 then 0 else s.row - 1) 0

/-- `nextRow` (ArrowDown). -/
def nextRow (body : Elem) (s : NavState) : Except String (Elem × NavState × Bool) :=
  match getRow body (s.row + 1) with
  | .error e => .error e
  | .ok row => if row.eqFalse then .ok (body, s, false) else highlightCard body s (s.row + 1) 0

/-- `previousColumn` (ArrowLeft). -/
def previousColumn (body : Elem) (s : NavState) : Except String (Elem × NavState × Bool) :=
  if s.col == 0 then .ok (body, s, false)
  else
    match getColumn body s.row (if s.col == -1 then 0 else s.col - 1) with
    | .error e => .error e
    | .ok column =>
      if column.eqFalse then .ok (body, s, false)
      else highlightCard body s s.row (if s.col == -1 then 0 else s.col - 1)

/-- `nextColumn` (ArrowRight). -/
def nextColumn (body : Elem) (s : NavState) : Except String (Elem × NavState × Bool) :=
  match getColumn body s.row (s.col + 1) with
  | .error e => .error e
  | .ok column =>
    if column.eqFalse then .ok (body, s, false) else highlightCard body s s.row (s.col + 1)

/-- `selectSeries` (Enter): resolve the card at the current cursor; if it
is truthy and contains an anchor, navigate to the first anchor's href
(the returned `some` value models the `location.href` assignment). -/
def selectSeries (body : Elem) (s : NavState) : Except String (Option String) :=
  match getColumn body s.row s.col with
  | .error e => .error e
  | .ok (.val (_, series)) =>
    match (dwpL series.children 0).filter (fun q => q.2.tag == "a") with
    | [] => .ok none
    | (_, anchor) :: _ => .ok (some anchor.href)
  | .ok _ => .ok none

inductive Move : Type where
  | rowBack : Move
  | rowFwd : Move
  | colBack : Move
  | colFwd : Move
deriving DecidableEq

def applyMove (body : Elem) (s : NavState) : Move → Except String (Elem × NavState × Bool)
  | .rowBack => previousRow body s
  | .rowFwd => nextRow body s
  | .colBack => previousColumn body s
  | .colFwd => nextColumn body s

/-- Observable effect of one keydown turn: an exception escaping the
handler leaves the document and the global cursor untouched and lets the
default behavior proceed. -/
def stepObs (p : Elem × NavState) (m : Move) : Elem × NavState :=
  match applyMove p.1 p.2 m with
  | .ok (b, s, _) => (b, s)
  | .error _ => p

def runMoves (p : Elem × NavState) (ms : List Move) : Elem × NavState := ms.foldl stepObs p

/-! ## Readiness chain (pageLoad.js)

`initPageLoadObserver` arms a one-shot child-list observer on the content
root; on its first firing it disconnects itself and runs
`initAppBodyObserver`, which either reports an error when no
`app-body-wrapper` element exists, or arms a second one-shot child-list
observer that disconnects itself and invokes the continuation on its
first firing.  The chain is modelled as a state machine driven by the
stream of structural-change notifications. -/

inductive LoadEvent : Type where
  | contentMutation : LoadEvent
  | appBodyMutation : LoadEvent
deriving DecidableEq

inductive ChainStage : Type where
  | waitContent : ChainStage
  | waitAppBody : ChainStage
  | failed : ChainStage
  | done : ChainStage
deriving DecidableEq

structure ChainState where
  stage : ChainStage
  calls : Nat
  errors : Nat
deriving DecidableEq

def chainInit : ChainState := ⟨.waitContent, 0, 0⟩

/-- One notification: the stage-1 observer reacts only to content-root
mutations while armed (disconnect, then locate the app body — report an
error and stop if absent, else arm stage 2); the stage-2 observer reacts
only to app-body mutations while armed (disconnect, then invoke the
continuation).  Disconnected observers ignore everything. -/
def chainStep (appBodyPresent : Bool) (st : ChainState) : LoadEvent → ChainState
  | .contentMutation =>
    match st.stage with
    | .waitContent =>
      if appBodyPresent then { st with stage := .waitAppBody }
      else { st with stage := .failed, errors := st.errors + 1 }
    | _ => st
  | .appBodyMutation =>
    match st.stage with
    | .waitAppBody => { st with stage := .done, calls := st.calls + 1 }
    | _ => st

def chainRun (appBodyPresent : Bool) (evs : List LoadEvent) : ChainState :=
  evs.foldl (chainStep appBodyPresent) chainInit

/-! ## Statement helpers -/

/-- Paths and borders of every element of the document, in document order. -/
def pbL (body : Elem) : List (List Nat × String) :=
  (dwpL body.children 0).map (fun q => (q.1, q.2.border))

/-- Paths of the elements currently carrying a (nonempty) border, i.e.
carrying the highlight. -/
def highlightedPaths (body : Elem) : List (List Nat) :=
  ((pbL body).filter (fun q => q.2 != "")).map (fun q => q.1)

/-- The path of the card the current cursor resolves to, if any. -/
def cursorCardPath (body : Elem) (s : NavState) : Option (List Nat) :=
  match getColumn body s.row s.col with
  | .ok (.val (p, _)) => some p
  | _ => none

def afterClean (body : Elem) : Elem :=
  match cleanDynamicFeed body with
  | .ok b => b
  | .error _ => body

/-- The display attributes of the dynamic-feed region's children. -/
def dynDisplays (body : Elem) : List String :=
  match getErcFeed body with
  | some (_, feed) => (childD feed 1).children.toList.map Elem.display
  | none => []

/-- The paths of the rows `getDynamicFeed` returns. -/
def feedPaths (body : Elem) : Except String (List (List Nat)) :=
  (getDynamicFeed body).map (List.map (fun q => q.1))

def rowResolves (body : Elem) (i : Int) : Bool :=
  match getRow body i with
  | .ok (.val _) => true
  | _ => false

def row2Has4Cols (body : Elem) : Bool :=
  match getColumns body 2 with
  | .ok (.val l) => l.length == 4
  | _ => false

/-! ## Concrete documents for the scenarios -/

def divc (cls : String) (cs : List Elem) : Elem := .mk "div" cls "" "" "" "" (EL cs)

def cardElem (cs : List Elem) : Elem := .mk "div" "" "carousel-card-wrapper" "" "" "" (EL cs)

def anchorTo (url : String) : Elem := .mk "a" "" "" url "" "" .nil

/-- A body holding one well-formed `erc-feed` region: hero banner (empty
class), dynamic feed with the given children, loading region. -/
def feedBody (dynChildren : List Elem) : Elem :=
  .mk "body" "" "" "" "" ""
    (EL [divc "erc-feed"
      [divc "" [], divc "dynamic-feed-wrapper" dynChildren, divc "loading" []]])

/-- A navigable category: one content child holding title + card list. -/
def navRow (cards : List Elem) : Elem :=
  divc "category" [divc "content" [divc "title" [], divc "cards" cards]]

/-- A news/editorial category: sole child carries the news marker. -/
def newsRow : Elem := divc "category" [divc "news-and-editorial block" [divc "n" []]]

/-- Scenario B document: dynamic feed with children
[no-child div, {title,cards} div, news div, {title,cards} div]. -/
def bodyB : Elem :=
  feedBody [divc "nochild" [], navRow [cardElem []], newsRow, navRow [cardElem []]]

/-- A dynamic feed whose LAST child is a news row. -/
def bodyC3 : Elem := feedBody [navRow [cardElem []], newsRow]

/-- One visible row holding one card that links to a series page. -/
def bodyC4 : Elem :=
  feedBody [navRow [cardElem [anchorTo "https://www.crunchyroll.com/series/demo"]],
            divc "filler" []]

/-- One visible row that resolves as a row but contains no card. -/
def bodyC5 : Elem := feedBody [navRow [], divc "filler" []]

/-- An empty document: no `erc-feed` region anywhere. -/
def bodyEmpty : Elem := .mk "body" "" "" "" "" "" .nil

/-- Two `erc-feed` regions; the first one is well-formed. -/
def bodyC8 : Elem :=
  .mk "body" "" "" "" "" ""
    (EL [divc "erc-feed" [divc "" [], divc "dynamic-feed-wrapper" [], divc "loading" []],
         divc "erc-feed" []])

/-- Rows 0..2 visible, row 2 holding exactly 4 cards. -/
def bodyC9 : Elem :=
  feedBody [navRow [cardElem []], navRow [cardElem []],
            navRow [cardElem [], cardElem [], cardElem [], cardElem []],
            divc "filler" []]

/-- One visible row with two cards, the first one currently highlighted. -/
def bodyC7 : Elem :=
  feedBody [divc "category"
      [divc "content" [divc "title" [],
        divc "cards" [.mk "div" "" "carousel-card-wrapper" "" "" "1px solid white" .nil,
                      cardElem []]]],
    divc "filler" []]

/-! ## Readiness-chain lemmas and claim C1 -/

/-- Invariant tying the continuation-call counter to the chain stage. -/
def chainP (st : ChainState) : Prop :=
  (st.stage = .done → st.calls = 1) ∧ (st.stage ≠ .done → st.calls = 0)

theorem chainP_step (b : Bool) (st : ChainState) (ev : LoadEvent) (h : chainP st) :
    chainP (chainStep b st ev) := by
  obtain ⟨h1, h2⟩ := h
  cases ev <;> cases hst : st.stage <;>
    (simp_all [chainStep, chainP]; try (split <;> simp_all))

theorem chainP_foldl (b : Bool) (evs : List LoadEvent) (st : ChainState) (h : chainP st) :
    chainP (evs.foldl (chainStep b) st) := by
  induction evs generalizing st with
  | nil => exact h
  | cons e rest ih => exact ih _ (chainP_step b st e h)

theorem chainStep_true_stage2 (st : ChainState) (ev : LoadEvent)
    (h : st.stage = .waitAppBody ∨ st.stage = .done) :
    (chainStep true st ev).stage = .waitAppBody ∨ (chainStep true st ev).stage = .done := by
  cases ev <;> rcases h with h | h <;> simp_all [chainStep]

theorem chainStep_done_eq (b : Bool) (st : ChainState) (ev : LoadEvent)
    (h : st.stage = .done) : chainStep b st ev = st := by
  cases ev <;> simp [chainStep, h]

theorem chain_done_absorb (b : Bool) (evs : List LoadEvent) (st : ChainState)
    (h : st.stage = .done) : evs.foldl (chainStep b) st = st := by
  induction evs with
  | nil => rfl
  | cons e rest ih => simp only [List.foldl_cons, chainStep_done_eq b st e h, ih]

theorem chain_reach_done (l2 : List LoadEvent) (st : ChainState)
    (h : st.stage = .waitAppBody ∨ st.stage = .done)
    (hm : LoadEvent.appBodyMutation ∈ l2) :
    (l2.foldl (chainStep true) st).stage = .done := by
  induction l2 generalizing st with
  | nil => cases hm
  | cons e rest ih =>
    by_cases hdone : (chainStep true st e).stage = .done
    · simp only [List.foldl_cons, chain_done_absorb true rest _ hdone, hdone]
    · have he : e ≠ LoadEvent.appBodyMutation := by
        intro heq
        subst heq
        rcases h with h | h <;> simp [chainStep, h] at hdone
      have hm2 : LoadEvent.appBodyMutation ∈ rest := by
        rcases List.mem_cons.mp hm with h' | h'
        · exact absurd h'.symm he
        · exact h'
      exact ih _ (chainStep_true_stage2 st e h) hm2

theorem chain_true_stage3 (evs : List LoadEvent) (st : ChainState)
    (h : st.stage ≠ .failed) :
    (evs.foldl (chainStep true) st).stage ≠ .failed := by
  induction evs generalizing st with
  | nil => exact h
  | cons e rest ih =>
    apply ih
    cases e <;> cases hst : st.stage <;> simp_all [chainStep]

/-- Invariant of the chain when the app body region is absent: the
continuation is never invoked, and exactly one diagnostic is reported
once the first stage has fired. -/
def chainR (st : ChainState) : Prop :=
  st.calls = 0 ∧
    ((st.stage = .waitContent ∧ st.errors = 0) ∨ (st.stage = .failed ∧ st.errors = 1))

theorem chainR_step (st : ChainState) (ev : LoadEvent) (h : chainR st) :
    chainR (chainStep false st ev) := by
  obtain ⟨h1, h2⟩ := h
  cases ev <;> rcases h2 with ⟨h2, h3⟩ | ⟨h2, h3⟩ <;> simp [chainStep, chainR, h1, h2, h3]

theorem chainR_foldl (evs : List LoadEvent) (st : ChainState) (h : chainR st) :
    chainR (evs.foldl (chainStep false) st) := by
  induction evs generalizing st with
  | nil => exact h
  | cons e rest ih => exact ih _ (chainR_step st e h)

theorem chainStep_false_failed (st : ChainState) (ev : LoadEvent)
    (h : st.stage = .failed) : (chainStep false st ev).stage = .failed := by
  cases ev <;> simp [chainStep, h]

theorem chain_failed_absorb (evs : List LoadEvent) (st : ChainState)
    (h : st.stage = .failed) : (evs.foldl (chainStep false) st).stage = .failed := by
  induction evs generalizing st with
  | nil => exact h
  | cons e rest ih =>
    simp only [List.foldl_cons]
    exact ih _ (chainStep_false_failed st e h)

theorem chain_false_reach_failed (evs : List LoadEvent) (st : ChainState)
    (h : st.stage = .waitContent ∨ st.stage = .failed)
    (hm : LoadEvent.contentMutation ∈ evs) :
    (evs.foldl (chainStep false) st).stage = .failed := by
  induction evs generalizing st with
  | nil => cases hm
  | cons e rest ih =>
    rcases List.mem_cons.mp hm with he | hm2
    · subst he
      have hf : (chainStep false st LoadEvent.contentMutation).stage = .failed := by
        rcases h with h | h <;> simp [chainStep, h]
      simp only [List.foldl_cons]
      exact chain_failed_absorb rest _ hf
    · have h2 : (chainStep false st e).stage = .waitContent ∨
          (chainStep false st e).stage = .failed := by
        cases e <;> rcases h with h | h <;> simp [chainStep, h]
      exact ih _ h2 hm2

/-- Claim C1: the two-stage readiness chain invokes the continuation at
most once on every event trace; exactly once whenever the content root
mutates, the app body region is locatable at that point, and an app-body
mutation follows; and when the app body region cannot be located, one
diagnostic is reported after the first stage fires and the continuation
is never invoked. -/
theorem c1_readiness_chain :
    (∀ (b : Bool) (evs : List LoadEvent), (chainRun b evs).calls ≤ 1) ∧
    (∀ (l1 l2 : List LoadEvent), LoadEvent.appBodyMutation ∈ l2 →
      (chainRun true (l1 ++ LoadEvent.contentMutation :: l2)).calls = 1) ∧
    (∀ evs : List LoadEvent, (chainRun false evs).calls = 0 ∧
      (chainRun false evs).errors ≤ 1 ∧
      (LoadEvent.contentMutation ∈ evs → (chainRun false evs).errors = 1)) := by
  have hinit : chainP chainInit := by constructor <;> simp [chainInit]
  refine ⟨?_, ?_, ?_⟩
  · intro b evs
    have h := chainP_foldl b evs chainInit hinit
    simp only [chainRun] at h ⊢
    by_cases hd : (evs.foldl (chainStep b) chainInit).stage = .done
    · exact le_of_eq (h.1 hd)
    · have := h.2 hd
      omega
  · intro l1 l2 hm
    have hP : chainP (chainRun true (l1 ++ LoadEvent.contentMutation :: l2)) :=
      chainP_foldl true _ chainInit hinit
    apply hP.1
    show (List.foldl (chainStep true) chainInit
      (l1 ++ LoadEvent.contentMutation :: l2)).stage = .done
    rw [List.foldl_append, List.foldl_cons]
    apply chain_reach_done l2 _ _ hm
    have hnf : (l1.foldl (chainStep true) chainInit).stage ≠ .failed :=
      chain_true_stage3 l1 chainInit (by simp [chainInit])
    cases hst : (l1.foldl (chainStep true) chainInit).stage <;>
      simp_all [chainStep]
  · intro evs
    have hinitR : chainR chainInit := by constructor <;> simp [chainInit]
    have hR := chainR_foldl evs chainInit hinitR
    refine ⟨hR.1, ?_, ?_⟩
    · rcases hR.2 with ⟨_, h3⟩ | ⟨_, h3⟩ <;> simp [chainRun] at h3 ⊢ <;> omega
    · intro hm
      have hf : (chainRun false evs).stage = .failed :=
        chain_false_reach_failed evs chainInit (by simp [chainInit]) hm
      rcases hR.2 with ⟨h2, _⟩ | ⟨_, h3⟩
      · simp only [chainRun] at hf h2
        simp [h2] at hf
      · exact h3

/-- Witness for C1: a concrete trace reaching the continuation exactly
once, and a concrete trace with an absent app body reporting once. -/
theorem c1_readiness_chain_witness :
    LoadEvent.appBodyMutation ∈ [LoadEvent.appBodyMutation] ∧
    (chainRun true [LoadEvent.contentMutation, LoadEvent.appBodyMutation]).calls = 1 ∧
    LoadEvent.contentMutation ∈ [LoadEvent.contentMutation] ∧
    (chainRun false [LoadEvent.contentMutation]).errors = 1 :=
  ⟨by decide,
   c1_readiness_chain.2.1 [] [LoadEvent.appBodyMutation] (by decide),
   by decide,
   (c1_readiness_chain.2.2 [LoadEvent.contentMutation]).2.2 (by decide)⟩

/-! ## Claims C2 and C3: the Content Filter and row derivation -/

/-- Claim C2 (code evaluated at the spec's Scenario B input): on the
4-child dynamic feed [no-child div, {title,cards} div, news div,
{title,cards} div], the Content Filter does mark children 0 and 2 hidden,
but the subsequent row derivation returns only the row at path [0,1,1]
(child 1) — child 3 is missing from the result because both loops stop at
`length - 1`, so the last child is never visited. -/
theorem c2_scenarioB_eval :
    dynDisplays (afterClean bodyB) = ["none", "", "none", ""] ∧
    feedPaths (afterClean bodyB) = .ok [[0, 1, 1]] :=
  ⟨by decide, by decide⟩

/-! For claim C3 we additionally prove the true half of the claim in
general form: one invocation of `cleanDynamicFeed` never detaches a node
and only ever touches styling (`stripStyleE` is preserved). -/

theorem stripStyle_setDisplay (v : String) (e : Elem) :
    stripStyleE (setDisplay v e) = stripStyleE e := by
  cases e
  simp [setDisplay, stripStyleE]

theorem stripStyle_cleanCategory (c : Elem) :
    stripStyleE (cleanCategory c) = stripStyleE c := by
  unfold cleanCategory
  split_ifs <;> first | exact stripStyle_setDisplay _ c | rfl

theorem stripStyle_cleanChildren : ∀ cs : ElemList,
    stripStyleL (cleanChildren cs) = stripStyleL cs
  | .nil => rfl
  | .cons _ .nil => rfl
  | .cons c (.cons c2 rest) => by
    simp only [cleanChildren, stripStyleL, stripStyle_cleanCategory,
      stripStyle_cleanChildren (ElemList.cons c2 rest)]

theorem stripStyle_cleanFeedElem (e : Elem) :
    stripStyleE (cleanFeedElem e) = stripStyleE e := by
  cases e
  simp [cleanFeedElem, stripStyleE, stripStyle_cleanChildren]

mutual
theorem stripStyle_modE : ∀ (e : Elem) (p : List Nat) (f : Elem → Elem),
    (∀ x, stripStyleE (f x) = stripStyleE x) → stripStyleE (modE e p f) = stripStyleE e
  | e, [], f, hf => by simp only [modE]; exact hf e
  | .mk t c d h dis b cs, i :: p, f, hf => by
    simp only [modE, stripStyleE, stripStyle_modL cs i p f hf]
theorem stripStyle_modL : ∀ (cs : ElemList) (i : Nat) (p : List Nat) (f : Elem → Elem),
    (∀ x, stripStyleE (f x) = stripStyleE x) → stripStyleL (modL cs i p f) = stripStyleL cs
  | .nil, _, _, _, _ => rfl
  | .cons c rest, 0, p, f, hf => by
    simp only [modL, stripStyleL, stripStyle_modE c p f hf]
  | .cons c rest, Nat.succ i, p, f, hf => by
    simp only [modL, stripStyleL, stripStyle_modL rest i p f hf]
end

/-- Claim C3 (the code at a failing input, plus the non-destructive
half proved in general): on a dynamic feed whose last child is a news
row, one invocation of the Content Filter leaves the document completely
unchanged — the loop bound `i < children.length - 1` never examines the
last child, although the filter policy classifies it as not navigable
(second conjunct).  The third conjunct proves the true half of the claim:
`cleanDynamicFeed` never detaches or restructures anything; it can only
change styling. -/
theorem c3_last_child_unclassified :
    cleanDynamicFeed bodyC3 = .ok bodyC3 ∧
    (cleanCategory newsRow).display = "none" ∧
    (∀ (body b2 : Elem), cleanDynamicFeed body = .ok b2 → stripStyleE b2 = stripStyleE body) := by
  refine ⟨by decide, by decide, ?_⟩
  intro body b2 h
  unfold cleanDynamicFeed at h
  cases hf : getErcFeed body with
  | none => rw [hf] at h; cases h
  | some pf =>
    rw [hf] at h
    cases h
    exact stripStyle_modE body _ _ stripStyle_cleanFeedElem

/-- Witness for C3's universally quantified conjunct, at the Scenario B
document. -/
theorem c3_last_child_unclassified_witness :
    stripStyleE (afterClean bodyB) = stripStyleE bodyB :=
  c3_last_child_unclassified.2.2 bodyB (afterClean bodyB) (by decide)

/-! ## Move-outcome lemmas -/

theorem highlightCard_cases (body : Elem) (s : NavState) (nr nc : Int)
    (b2 : Elem) (s2 : NavState) (cons : Bool)
    (h : highlightCard body s nr nc = .ok (b2, s2, cons)) :
    (cons = false ∧ s2 = s) ∨
      (cons = true ∧ s2 = ⟨if nr < 0 then 0 else nr, if nc < 0 then 0 else nc⟩) := by
  unfold highlightCard at h
  split at h
  · cases h
  · split at h
    · cases h
    · simp only [Except.ok.injEq, Prod.mk.injEq] at h
      exact .inr ⟨h.2.2.symm, h.2.1.symm⟩
    · simp only [Except.ok.injEq, Prod.mk.injEq] at h
      exact .inl ⟨h.2.2.symm, h.2.1.symm⟩

/-- Every move either returns unchanged-and-unconsumed, or hands over to
`highlightCard` with its specific target. -/
theorem applyMove_cases (body : Elem) (s : NavState) (m : Move)
    (b2 : Elem) (s2 : NavState) (cons : Bool)
    (h : applyMove body s m = .ok (b2, s2, cons)) :
    (b2 = body ∧ s2 = s ∧ cons = false) ∨
      (∃ nr nc : Int, highlightCard body s nr nc = .ok (b2, s2, cons) ∧
        ((m = .rowBack ∨ m = .rowFwd) → nc = 0)) := by
  cases m
  case rowBack =>
    simp only [applyMove, previousRow] at h
    split at h
    · simp only [Except.ok.injEq, Prod.mk.injEq] at h
      exact .inl ⟨h.1.symm, h.2.1.symm, h.2.2.symm⟩
    · split at h
      · cases h
      · split at h
        · simp only [Except.ok.injEq, Prod.mk.injEq] at h
          exact .inl ⟨h.1.symm, h.2.1.symm, h.2.2.symm⟩
        · exact .inr ⟨_, 0, h, fun _ => rfl⟩
  case rowFwd =>
    simp only [applyMove, nextRow] at h
    split at h
    · cases h
    · split at h
      · simp only [Except.ok.injEq, Prod.mk.injEq] at h
        exact .inl ⟨h.1.symm, h.2.1.symm, h.2.2.symm⟩
      · exact .inr ⟨_, 0, h, fun _ => rfl⟩
  case colBack =>
    simp only [applyMove, previousColumn] at h
    split at h
    · simp only [Except.ok.injEq, Prod.mk.injEq] at h
      exact .inl ⟨h.1.symm, h.2.1.symm, h.2.2.symm⟩
    · split at h
      · cases h
      · split at h
        · simp only [Except.ok.injEq, Prod.mk.injEq] at h
          exact .inl ⟨h.1.symm, h.2.1.symm, h.2.2.symm⟩
        · exact .inr ⟨s.row, _, h, by simp⟩
  case colFwd =>
    simp only [applyMove, nextColumn] at h
    split at h
    · cases h
    · split at h
      · simp only [Except.ok.injEq, Prod.mk.injEq] at h
        exact .inl ⟨h.1.symm, h.2.1.symm, h.2.2.symm⟩
      · exact .inr ⟨s.row, _, h, by simp⟩

theorem stepObs_state (body : Elem) (s : NavState) (m : Move) :
    (stepObs (body, s) m).2 = s ∨
      (0 ≤ (stepObs (body, s) m).2.row ∧ 0 ≤ (stepObs (body, s) m).2.col) := by
  unfold stepObs
  split
  next b2 s2 cons heq =>
    rcases applyMove_cases body s m b2 s2 cons heq with ⟨_, hs, _⟩ | ⟨nr, nc, hh, _⟩
    · exact .inl hs
    · rcases highlightCard_cases body s nr nc b2 s2 cons hh with ⟨_, hs⟩ | ⟨_, hs⟩
      · exact .inl hs
      · right
        rw [hs]
        constructor <;> dsimp only <;> split <;> omega
  next e heq => exact .inl rfl

theorem runMoves_ge_neg1 : ∀ (ms : List Move) (body : Elem) (s : NavState),
    -1 ≤ s.row → -1 ≤ s.col →
    -1 ≤ (runMoves (body, s) ms).2.row ∧ -1 ≤ (runMoves (body, s) ms).2.col
  | [], _, s, h1, h2 => ⟨h1, h2⟩
  | m :: rest, body, s, h1, h2 => by
    have hstep := stepObs_state body s m
    have hs2 : -1 ≤ (stepObs (body, s) m).2.row ∧ -1 ≤ (stepObs (body, s) m).2.col := by
      rcases hstep with hs | ⟨ha, hb⟩
      · rw [hs]; exact ⟨h1, h2⟩
      · exact ⟨by omega, by omega⟩
    have := runMoves_ge_neg1 rest (stepObs (body, s) m).1 (stepObs (body, s) m).2 hs2.1 hs2.2
    simpa [runMoves, List.foldl_cons] using this

theorem runMoves_ge_zero : ∀ (ms : List Move) (body : Elem) (s : NavState),
    0 ≤ s.row → 0 ≤ s.col →
    0 ≤ (runMoves (body, s) ms).2.row ∧ 0 ≤ (runMoves (body, s) ms).2.col
  | [], _, s, h1, h2 => ⟨h1, h2⟩
  | m :: rest, body, s, h1, h2 => by
    have hstep := stepObs_state body s m
    have hs2 : 0 ≤ (stepObs (body, s) m).2.row ∧ 0 ≤ (stepObs (body, s) m).2.col := by
      rcases hstep with hs | ⟨ha, hb⟩
      · rw [hs]; exact ⟨h1, h2⟩
      · exact ⟨ha, hb⟩
    have := runMoves_ge_zero rest (stepObs (body, s) m).1 (stepObs (body, s) m).2 hs2.1 hs2.2
    simpa [runMoves, List.foldl_cons] using this

/-- Claim C10: every transition of the cursor state machine either leaves
the cursor unchanged or commits both components to values ≥ 0 (negatives
are normalised to 0 inside `highlightCard` at commit time); consequently
both components stay ≥ -1 along any move sequence, and from any state
with both components ≥ 0 (the situation after any successful move) the
components stay ≥ 0 forever — neither ever returns to -1.  A turn that
throws leaves the globals untouched (`stepObs`). -/
theorem c10_cursor_nonneg :
    (∀ (body : Elem) (s : NavState) (m : Move) (b2 : Elem) (s2 : NavState) (cons : Bool),
      applyMove body s m = .ok (b2, s2, cons) → s2 = s ∨ (0 ≤ s2.row ∧ 0 ≤ s2.col)) ∧
    (∀ (body : Elem) (s : NavState) (ms : List Move), -1 ≤ s.row → -1 ≤ s.col →
      -1 ≤ (runMoves (body, s) ms).2.row ∧ -1 ≤ (runMoves (body, s) ms).2.col) ∧
    (∀ (body : Elem) (s : NavState) (ms : List Move), 0 ≤ s.row → 0 ≤ s.col →
      0 ≤ (runMoves (body, s) ms).2.row ∧ 0 ≤ (runMoves (body, s) ms).2.col) := by
  refine ⟨?_, fun body s ms => runMoves_ge_neg1 ms body s,
    fun body s ms => runMoves_ge_zero ms body s⟩
  intro body s m b2 s2 cons h
  rcases applyMove_cases body s m b2 s2 cons h with ⟨_, hs, _⟩ | ⟨nr, nc, hh, _⟩
  · exact .inl hs
  · rcases highlightCard_cases body s nr nc b2 s2 cons hh with ⟨_, hs⟩ | ⟨_, hs⟩
    · exact .inl hs
    · right
      rw [hs]
      constructor <;> dsimp only <;> split <;> omega

/-- Witness for C10 at concrete inputs: a successful move commits a
nonnegative cursor, and concrete runs preserve the bounds. -/
theorem c10_cursor_nonneg_witness :
    (applyMove bodyC4 ⟨-1, -1⟩ .rowFwd =
        .ok ((stepObs (bodyC4, ⟨-1, -1⟩) .rowFwd).1, ⟨0, 0⟩, true)) ∧
    ((⟨0, 0⟩ : NavState) = ⟨-1, -1⟩ ∨ (0 ≤ (0 : Int) ∧ 0 ≤ (0 : Int))) ∧
    (-1 ≤ (runMoves (bodyC4, ⟨-1, -1⟩) [.rowFwd, .colFwd]).2.row ∧
      -1 ≤ (runMoves (bodyC4, ⟨-1, -1⟩) [.rowFwd, .colFwd]).2.col) ∧
    (0 ≤ (runMoves (bodyC4, ⟨0, 0⟩) [.colBack, .rowBack]).2.row ∧
      0 ≤ (runMoves (bodyC4, ⟨0, 0⟩) [.colBack, .rowBack]).2.col) :=
  ⟨by decide,
   c10_cursor_nonneg.1 bodyC4 ⟨-1, -1⟩ .rowFwd
     (stepObs (bodyC4, ⟨-1, -1⟩) .rowFwd).1 ⟨0, 0⟩ true (by decide),
   c10_cursor_nonneg.2.1 bodyC4 ⟨-1, -1⟩ [.rowFwd, .colFwd] (by decide) (by decide),
   c10_cursor_nonneg.2.2 bodyC4 ⟨0, 0⟩ [.colBack, .rowBack] (by decide) (by decide)⟩

/-! ## Claim C5: abandoned moves -/

/-- Counterexample to C5 as stated: on a document whose first row
resolves but contains no card, `nextRow` from the unset cursor resolves
its target row yet does NOT commit the cursor at column 0 and does NOT
consume the event — the claimed exception for row-moves is wrong. -/
theorem c5_resolved_row_not_committed :
    rowResolves bodyC5 0 = true ∧
    nextRow bodyC5 ⟨-1, -1⟩ = .ok (bodyC5, ⟨-1, -1⟩, false) :=
  ⟨by decide, by decide⟩

/-- Claim C5 as amended: a move whose target Row or Column does not
resolve returns with the document, the cursor and the consumed flag all
unchanged; an unconsumed move never changes the cursor; and a row-move
that does consume commits the cursor at column 0 with a nonnegative row.
(A row-move whose row resolves merely proceeds to attempt the highlight;
it commits and consumes only if column 0 of the target row also
resolves.) -/
theorem c5_abandoned_moves :
    (∀ (body : Elem) (s : NavState), getColumn body s.row (s.col + 1) = .ok .jsFalse →
      nextColumn body s = .ok (body, s, false)) ∧
    (∀ (body : Elem) (s : NavState),
      getColumn body s.row (if s.col == -1 then 0 else s.col - 1) = .ok .jsFalse →
      previousColumn body s = .ok (body, s, false)) ∧
    (∀ (body : Elem) (s : NavState), getRow body (s.row + 1) = .ok .jsFalse →
      nextRow body s = .ok (body, s, false)) ∧
    (∀ (body : Elem) (s : NavState),
      getRow body (if s.row == -1 then 0 else s.row - 1) = .ok .jsFalse →
      previousRow body s = .ok (body, s, false)) ∧
    (∀ (body : Elem) (s : NavState) (m : Move) (b2 : Elem) (s2 : NavState),
      applyMove body s m = .ok (b2, s2, false) → s2 = s) ∧
    (∀ (body : Elem) (s : NavState) (b2 : Elem) (s2 : NavState),
      (nextRow body s = .ok (b2, s2, true) ∨ previousRow body s = .ok (b2, s2, true)) →
      s2.col = 0 ∧ 0 ≤ s2.row) := by
  refine ⟨?_, ?_, ?_, ?_, ?_, ?_⟩
  · intro body s h
    unfold nextColumn
    rw [h]
    rfl
  · intro body s h
    unfold previousColumn
    by_cases h0 : s.col == 0
    · rw [if_pos h0]
    · rw [if_neg h0, h]
      rfl
  · intro body s h
    unfold nextRow
    rw [h]
    rfl
  · intro body s h
    unfold previousRow
    by_cases h0 : s.row == 0
    · rw [if_pos h0]
    · rw [if_neg h0, h]
      rfl
  · intro body s m b2 s2 h
    rcases applyMove_cases body s m b2 s2 false h with ⟨_, hs, _⟩ | ⟨nr, nc, hh, _⟩
    · exact hs
    · rcases highlightCard_cases body s nr nc b2 s2 false hh with ⟨_, hs⟩ | ⟨hc, _⟩
      · exact hs
      · cases hc
  · intro body s b2 s2 h
    have hh : ∃ nr : Int, highlightCard body s nr 0 = .ok (b2, s2, true) := by
      rcases h with h | h
      · rcases applyMove_cases body s .rowFwd b2 s2 true h with ⟨_, _, hc⟩ | ⟨nr, nc, hh, hnc⟩
        · cases hc
        · exact ⟨nr, by rw [← hnc (.inr rfl)]; exact hh⟩
      · rcases applyMove_cases body s .rowBack b2 s2 true h with ⟨_, _, hc⟩ | ⟨nr, nc, hh, hnc⟩
        · cases hc
        · exact ⟨nr, by rw [← hnc (.inl rfl)]; exact hh⟩
    obtain ⟨nr, hh⟩ := hh
    rcases highlightCard_cases body s nr 0 b2 s2 true hh with ⟨hc, _⟩ | ⟨_, hs⟩
    · cases hc
    · rw [hs]
      refine ⟨by norm_num, ?_⟩
      dsimp only
      split <;> omega

/-- Witness for C5's amended statement: a concrete column-move miss and
a concrete consuming row-move. -/
theorem c5_abandoned_moves_witness :
    (getColumn bodyC9 (2 : Int) ((3 : Int) + 1) = .ok .jsFalse ∧
      nextColumn bodyC9 ⟨2, 3⟩ = .ok (bodyC9, ⟨2, 3⟩, false)) ∧
    ((stepObs (bodyC4, ⟨-1, -1⟩) .rowFwd).2.col = 0 ∧
      0 ≤ (stepObs (bodyC4, ⟨-1, -1⟩) .rowFwd).2.row) :=
  ⟨⟨by decide, c5_abandoned_moves.1 bodyC9 ⟨2, 3⟩ (by decide)⟩,
   c5_abandoned_moves.2.2.2.2.2 bodyC4 ⟨-1, -1⟩ (stepObs (bodyC4, ⟨-1, -1⟩) .rowFwd).1
     (stepObs (bodyC4, ⟨-1, -1⟩) .rowFwd).2 (.inl (by decide))⟩

/-! ## Claim C9: column-move past the last column -/

/-- Claim C9: whenever Row 2 resolves with exactly 4 columns, a
move-col-forward from cursor (2,3) is a resolution miss: the document is
untouched (no highlight changes), the cursor remains (2,3), and the event
is not consumed. -/
theorem c9_resolution_miss (body : Elem) (h : row2Has4Cols body = true) :
    nextColumn body ⟨2, 3⟩ = .ok (body, ⟨2, 3⟩, false) := by
  unfold row2Has4Cols at h
  split at h
  next l heq =>
    have hl : l.length = 4 := by simpa using h
    have hcol : getColumn body 2 ((3 : Int) + 1) = .ok .jsFalse := by
      unfold getColumn
      rw [heq]
      dsimp only
      rw [hl]
      norm_num
    simp only [nextColumn]
    rw [hcol]
    rfl
  next heq => cases h

/-- Witness for C9 at the concrete Scenario C document. -/
theorem c9_resolution_miss_witness :
    row2Has4Cols bodyC9 = true ∧
    nextColumn bodyC9 ⟨2, 3⟩ = .ok (bodyC9, ⟨2, 3⟩, false) :=
  ⟨by decide, c9_resolution_miss bodyC9 (by decide)⟩

/-! ## Claim C4: the confirm action -/

theorem getRows_some_ne_nil (body : Elem) (rows : List (List Nat × Elem))
    (h : getRows body = .ok (some rows)) : rows ≠ [] := by
  unfold getRows at h
  split at h
  · cases h
  · split at h
    · cases h
    next hlen =>
      simp only [Except.ok.injEq, Option.some.injEq] at h
      subst h
      simpa using hlen

theorem getRow_neg1 (body : Elem) : getRow body (-1) = getRow body 0 := by
  unfold getRow
  cases hr : getRows body with
  | error e => rfl
  | ok o =>
    cases o with
    | none => rfl
    | some rows =>
      have hne : rows ≠ [] := getRows_some_ne_nil body rows hr
      have hlen : 1 ≤ rows.length := List.length_pos.mpr hne
      have h1 : ¬((-1 : Int) > (rows.length : Int) - 1) := by omega
      have h2 : ¬((0 : Int) > (rows.length : Int) - 1) := by omega
      dsimp only
      rw [if_neg h1, if_neg h2]
      norm_num

theorem getColumns_neg1 (body : Elem) : getColumns body (-1) = getColumns body 0 := by
  unfold getColumns
  rw [getRow_neg1]

theorem getColumn_neg1 (body : Elem) : getColumn body (-1) (-1) = getColumn body 0 0 := by
  unfold getColumn
  rw [getColumns_neg1]
  cases hc : getColumns body 0 with
  | error e => rfl
  | ok o =>
    cases o with
    | jsFalse => rfl
    | undef => rfl
    | val cols =>
      have hne : cols ≠ [] := by
        unfold getColumns at hc
        split at hc
        · cases hc
        · cases hc
        · cases hc
        · split at hc
          · cases hc
          next hlen =>
            simp only [Except.ok.injEq, Js.val.injEq] at hc
            subst hc
            intro hnil
            simp [hnil] at hlen
      have hlen : 1 ≤ cols.length := List.length_pos.mpr hne
      have h1 : ¬((-1 : Int) > (cols.length : Int) - 1) := by omega
      have h2 : ¬((0 : Int) > (cols.length : Int) - 1) := by omega
      dsimp only
      rw [if_neg h1, if_neg h2]
      norm_num

/-- Counterexample to C4 as stated: on a document whose row 0 / column 0
exist and carry an anchor, the confirm action from the UNSET cursor
(-1,-1) is not a resolution miss — it navigates to the anchor target,
because `getColumn` applies the same -1-defaults-to-first policy for the
confirm path as for moves. -/
theorem c4_unset_confirm_navigates :
    selectSeries bodyC4 ⟨-1, -1⟩ = .ok (some "https://www.crunchyroll.com/series/demo") := by
  decide

/-- Claim C4 as amended: confirm resolves the Column at the current
cursor with the same index-defaulting policy as moves — from (-1,-1) it
behaves exactly as from (0,0), navigating iff the resolved card carries
an anchor — and it is a no-op whenever resolution fails. -/
theorem c4_confirm_resolution :
    (∀ body : Elem, selectSeries body ⟨-1, -1⟩ = selectSeries body ⟨0, 0⟩) ∧
    (∀ (body : Elem) (s : NavState), getColumn body s.row s.col = .ok .jsFalse →
      selectSeries body s = .ok none) := by
  constructor
  · intro body
    unfold selectSeries
    rw [show ((⟨-1, -1⟩ : NavState)).row = (-1 : Int) from rfl,
      show ((⟨-1, -1⟩ : NavState)).col = (-1 : Int) from rfl,
      show ((⟨0, 0⟩ : NavState)).row = (0 : Int) from rfl,
      show ((⟨0, 0⟩ : NavState)).col = (0 : Int) from rfl,
      getColumn_neg1]
  · intro body s h
    unfold selectSeries
    rw [h]

/-- Witness for C4's amended statement: the defaulting equivalence and a
concrete resolution miss. -/
theorem c4_confirm_resolution_witness :
    selectSeries bodyC4 ⟨-1, -1⟩ = selectSeries bodyC4 ⟨0, 0⟩ ∧
    (getColumn bodyC5 (-1) (-1) = .ok .jsFalse ∧
      selectSeries bodyC5 ⟨-1, -1⟩ = .ok none) :=
  ⟨c4_confirm_resolution.1 bodyC4,
   by decide,
   c4_confirm_resolution.2 bodyC5 ⟨-1, -1⟩ (by decide)⟩

/-! ## Claim C6: fault behavior on malformed trees -/

/-- Counterexample to C6 as stated: on a document with no feed region,
`getErcFeed` itself fails gracefully, but `cleanDynamicFeed`,
`hideHeroBanner` and `initiateFeedObserver` all dereference its `false`
return value and raise a TypeError — not "silently doing nothing". -/
theorem c6_typeerror_on_invalid_feed :
    getErcFeed bodyEmpty = none ∧
    cleanDynamicFeed bodyEmpty = .error "TypeError" ∧
    hideHeroBanner bodyEmpty = .error "TypeError" ∧
    initiateFeedObserver bodyEmpty = .error "TypeError" :=
  ⟨by decide, by decide, by decide, by decide⟩

/-- Claim C6 as amended: on every tree on which `getErcFeed` succeeds,
`cleanDynamicFeed`, `hideHeroBanner` and `initiateFeedObserver` complete
without fault; on every tree on which `getErcFeed` returns the failure
value, all three raise a TypeError (they are only safe behind init's
one-time `getErcFeed` check). -/
theorem c6_fault_boundary :
    (∀ body : Elem, (getErcFeed body).isSome = true →
      isOkB (cleanDynamicFeed body) = true ∧ isOkB (hideHeroBanner body) = true ∧
        isOkB (initiateFeedObserver body) = true) ∧
    (∀ body : Elem, getErcFeed body = none →
      isOkB (cleanDynamicFeed body) = false ∧ isOkB (hideHeroBanner body) = false ∧
        isOkB (initiateFeedObserver body) = false) := by
  constructor
  · intro body h
    cases hf : getErcFeed body with
    | none => rw [hf] at h; cases h
    | some pf =>
      obtain ⟨fp, feed⟩ := pf
      unfold cleanDynamicFeed hideHeroBanner initiateFeedObserver
      rw [hf]
      refine ⟨rfl, ?_, rfl⟩
      dsimp only
      split <;> rfl
  · intro body h
    unfold cleanDynamicFeed hideHeroBanner initiateFeedObserver
    rw [h]
    exact ⟨rfl, rfl, rfl⟩

/-- Witness for C6's amended statement at concrete documents. -/
theorem c6_fault_boundary_witness :
    (isOkB (cleanDynamicFeed bodyC4) = true ∧ isOkB (hideHeroBanner bodyC4) = true ∧
      isOkB (initiateFeedObserver bodyC4) = true) ∧
    (isOkB (cleanDynamicFeed bodyEmpty) = false ∧ isOkB (hideHeroBanner bodyEmpty) = false ∧
      isOkB (initiateFeedObserver bodyEmpty) = false) :=
  ⟨c6_fault_boundary.1 bodyC4 (by decide), c6_fault_boundary.2 bodyEmpty (by decide)⟩

/-! ## Claim C8: locating the feed -/

/-- Counterexample to C8 as stated: a document holding TWO feed-marked
regions on which `locateFeed` does NOT return absent — the code only
checks `length == 0` and then uses the first match. -/
theorem c8_two_feed_regions_located :
    (queryAllClass bodyC8 "erc-feed").length = 2 ∧ (getErcFeed bodyC8).isSome = true :=
  ⟨by decide, by decide⟩

/-- Claim C8 as amended: `getErcFeed` returns absent exactly when NO
region carries the feed marker, or the FIRST such region (in document
order) does not have exactly 3 children, or the class attribute of the
second of those children does not contain the dynamic-feed marker.
Regions beyond the first are ignored. -/
theorem c8_locate_feed_failure (body : Elem) :
    getErcFeed body = none ↔
      match queryAllClass body "erc-feed" with
      | [] => True
      | (_, feed) :: _ =>
        feed.children.toList.length ≠ 3 ∨
          jsIncludes (childD feed 1).className "dynamic-feed-wrapper" = false := by
  unfold getErcFeed
  cases hq : queryAllClass body "erc-feed" with
  | nil => simp
  | cons q rest =>
    obtain ⟨fp, feed⟩ := q
    dsimp only
    split_ifs with h1 h2
    · simp only [bne_iff_ne, ne_eq] at h1
      simp [h1]
    · cases hjs : jsIncludes (childD feed 1).className "dynamic-feed-wrapper"
      · simp [hjs]
      · rw [hjs] at h2
        cases h2
    · simp only [bne_iff_ne, ne_eq, not_not] at h1
      cases hjs : jsIncludes (childD feed 1).className "dynamic-feed-wrapper"
      · rw [hjs] at h2
        simp at h2
      · simp [h1, hjs]

/-! ## Claim C7: the single-highlight invariant

The proof tracks the border attribute of every element through the two
`setBorderAt` updates a successful `highlightCard` performs, using the
path/border projection `pbL`. -/

mutual
theorem dwpE_head : ∀ (e : Elem) (k : Nat) (q : List Nat × Elem),
    q ∈ dwpE e k → ∃ t, q.1 = k :: t
  | .mk t c d h dis b cs, k, q, hq => by
    simp only [dwpE, List.mem_cons, List.mem_map] at hq
    rcases hq with hq | ⟨r, _, hr⟩
    · exact ⟨[], by rw [hq]⟩
    · exact ⟨r.1, by rw [← hr]⟩
theorem dwpL_head : ∀ (cs : ElemList) (k : Nat) (q : List Nat × Elem),
    q ∈ dwpL cs k → ∃ j t, q.1 = j :: t ∧ k ≤ j
  | .nil, _, _, hq => by cases hq
  | .cons e es, k, q, hq => by
    rcases List.mem_append.mp hq with hq | hq
    · obtain ⟨t, ht⟩ := dwpE_head e k q hq
      exact ⟨k, t, ht, le_refl k⟩
    · obtain ⟨j, t, ht, hj⟩ := dwpL_head es (k + 1) q hq
      exact ⟨j, t, ht, by omega⟩
end

theorem dwpL_getD_mem : ∀ (cs : ElemList) (k i : Nat), i < cs.toList.length →
    ([i + k], cs.toList.getD i emptyElem) ∈ dwpL cs k
  | .nil, _, i, hi => by simp [ElemList.toList] at hi
  | .cons e es, k, 0, _ => by
    cases e with
    | mk t c d h dis b cs2 =>
      simp [dwpL, dwpE, ElemList.toList]
  | .cons e es, k, Nat.succ i, hi => by
    have hi2 : i < es.toList.length := by
      simpa [ElemList.toList] using hi
    have := dwpL_getD_mem es (k + 1) i hi2
    rw [show i + 1 + k = i + (k + 1) by omega]
    simp only [dwpL, List.mem_append, ElemList.toList, List.getD_cons_succ]
    exact .inr this

mutual
theorem dwpE_mem_trans : ∀ (a : Elem) (k : Nat) (p : List Nat) (e : Elem)
    (q : List Nat) (x : Elem),
    (p, e) ∈ dwpE a k → (q, x) ∈ dwpL e.children 0 → (p ++ q, x) ∈ dwpE a k
  | .mk t c d h dis b cs, k, p, e, q, x, hp, hq => by
    simp only [dwpE, List.mem_cons, List.mem_map] at hp
    rcases hp with hp | ⟨r, hr, hr1⟩
    · have hp1 : p = [k] := congrArg Prod.fst hp
      have hp2 : e = Elem.mk t c d h dis b cs := congrArg Prod.snd hp
      subst hp1
      simp only [dwpE, List.mem_cons, List.mem_map]
      right
      refine ⟨(q, x), ?_, rfl⟩
      rw [hp2] at hq
      simpa [Elem.children] using hq
    · have hp1 : k :: r.1 = p := congrArg Prod.fst hr1
      have hp2 : r.2 = e := congrArg Prod.snd hr1
      subst hp1
      simp only [dwpE, List.mem_cons, List.mem_map]
      right
      have hre : r = (r.1, e) := by
        rw [← hp2]
      have hm : (r.1 ++ q, x) ∈ dwpL cs 0 := dwpL_mem_trans cs 0 r.1 e q x (hre ▸ hr) hq
      exact ⟨(r.1 ++ q, x), hm, rfl⟩
theorem dwpL_mem_trans : ∀ (cs : ElemList) (k : Nat) (p : List Nat) (e : Elem)
    (q : List Nat) (x : Elem),
    (p, e) ∈ dwpL cs k → (q, x) ∈ dwpL e.children 0 → (p ++ q, x) ∈ dwpL cs k
  | .nil, _, _, _, _, _, hp, _ => by cases hp
  | .cons a es, k, p, e, q, x, hp, hq => by
    simp only [dwpL, List.mem_append] at hp ⊢
    rcases hp with hp | hp
    · exact .inl (dwpE_mem_trans a k p e q x hp hq)
    · exact .inr (dwpL_mem_trans es (k + 1) p e q x hp hq)
end

theorem getErcFeed_mem (body : Elem) (fp : List Nat) (feed : Elem)
    (h : getErcFeed body = some (fp, feed)) :
    (fp, feed) ∈ dwpL body.children 0 ∧ feed.children.toList.length = 3 := by
  unfold getErcFeed at h
  split at h
  · cases h
  next fp0 feed0 rest hq =>
    split at h
    · cases h
    · split at h
      · cases h
      next h1 _ =>
        simp only [Option.some.injEq, Prod.mk.injEq] at h
        obtain ⟨hfp, hfeed⟩ := h
        constructor
        · rw [← hfp, ← hfeed]
          have : (fp0, feed0) ∈ queryAllClass body "erc-feed" := by
            rw [hq]
            exact List.mem_cons_self _ _
          exact List.mem_of_mem_filter this
        · rw [← hfeed]
          simpa using h1

theorem getDynamicFeed_mem (body : Elem) (l : List (List Nat × Elem))
    (h : getDynamicFeed body = .ok l) (p : List Nat) (x : Elem) (hm : (p, x) ∈ l) :
    (p, x) ∈ dwpL body.children 0 := by
  unfold getDynamicFeed at h
  split at h
  · cases h
  next fp feed hf =>
    obtain ⟨hfm, h3⟩ := getErcFeed_mem body fp feed hf
    simp only [Except.ok.injEq] at h
    subst h
    simp only [List.mem_map, List.mem_filter, List.mem_range] at hm
    obtain ⟨i, ⟨hilt, _⟩, heq⟩ := hm
    have hp : p = fp ++ [1, i] := (congrArg Prod.fst heq).symm
    have hx : x = (childD feed 1).children.toList.getD i emptyElem :=
      (congrArg Prod.snd heq).symm
    subst hp hx
    have hi : i < (childD feed 1).children.toList.length := by omega
    have hm1 : ([1], childD feed 1) ∈ dwpL feed.children 0 := by
      have := dwpL_getD_mem feed.children 0 1 (by omega)
      simpa [childD] using this
    have hm2 : ([i], (childD feed 1).children.toList.getD i emptyElem) ∈
        dwpL (childD feed 1).children 0 := by
      have := dwpL_getD_mem (childD feed 1).children 0 i (by simpa using hi)
      simpa using this
    have hstep1 : (fp ++ [1], childD feed 1) ∈ dwpL body.children 0 :=
      dwpL_mem_trans body.children 0 fp feed [1] (childD feed 1) hfm hm1
    have hstep2 : ((fp ++ [1]) ++ [i], (childD feed 1).children.toList.getD i emptyElem) ∈
        dwpL body.children 0 :=
      dwpL_mem_trans body.children 0 (fp ++ [1]) (childD feed 1) [i] _ hstep1 hm2
    simpa [List.append_assoc] using hstep2

theorem getRows_eq_feed (body : Elem) (rows : List (List Nat × Elem))
    (h : getRows body = .ok (some rows)) : getDynamicFeed body = .ok rows := by
  unfold getRows at h
  split at h
  · cases h
  next rows0 hdf =>
    split at h
    · cases h
    · simp only [Except.ok.injEq, Option.some.injEq] at h
      rw [hdf, h]

theorem getRow_val_mem (body : Elem) (r : Int) (rp : List Nat) (row : Elem)
    (h : getRow body r = .ok (.val (rp, row))) : (rp, row) ∈ dwpL body.children 0 := by
  unfold getRow at h
  split at h
  · cases h
  · cases h
  next rows hrows =>
    have hdf := getRows_eq_feed body rows hrows
    have hlen : rows ≠ [] := getRows_some_ne_nil body rows hrows
    have hpos : 0 < rows.length := List.length_pos.mpr hlen
    by_cases hgt : r > (rows.length : Int) - 1
    · rw [if_pos hgt] at h
      cases h
    · rw [if_neg hgt] at h
      by_cases heq1 : (r == -1) = true
      · rw [if_pos heq1] at h
        simp only [Except.ok.injEq, Js.val.injEq] at h
        have hmem : rows.getD 0 ([], emptyElem) ∈ rows := by
          rw [List.getD_eq_getElem rows ([], emptyElem) hpos]
          exact List.getElem_mem hpos
        rw [h] at hmem
        exact getDynamicFeed_mem body rows hdf rp row hmem
      · rw [if_neg heq1] at h
        by_cases hlt : r < -1
        · rw [if_pos hlt] at h
          cases h
        · rw [if_neg hlt] at h
          simp only [Except.ok.injEq, Js.val.injEq] at h
          have hne : r ≠ -1 := by simpa using heq1
          have hrlt : r.toNat < rows.length := by omega
          have hmem : rows.getD r.toNat ([], emptyElem) ∈ rows := by
            rw [List.getD_eq_getElem rows ([], emptyElem) hrlt]
            exact List.getElem_mem hrlt
          rw [h] at hmem
          exact getDynamicFeed_mem body rows hdf rp row hmem

theorem getColumns_val_ne_nil (body : Elem) (r : Int) (cols : List (List Nat × Elem))
    (h : getColumns body r = .ok (.val cols)) : cols ≠ [] := by
  unfold getColumns at h
  split at h
  · cases h
  · cases h
  · cases h
  · split at h
    · cases h
    next hlen =>
      simp only [Except.ok.injEq, Js.val.injEq] at h
      subst h
      intro hnil
      simp [hnil] at hlen

theorem getColumns_val_mem (body : Elem) (r : Int) (cols : List (List Nat × Elem))
    (h : getColumns body r = .ok (.val cols)) (q : List Nat) (x : Elem)
    (hm : (q, x) ∈ cols) : (q, x) ∈ dwpL body.children 0 := by
  unfold getColumns at h
  split at h
  · cases h
  · cases h
  · cases h
  next rp row hrow =>
    split at h
    · cases h
    · simp only [Except.ok.injEq, Js.val.injEq] at h
      subst h
      simp only [List.mem_map, List.mem_filter] at hm
      obtain ⟨r0, ⟨hr0, _⟩, heq⟩ := hm
      have hq : q = rp ++ r0.1 := (congrArg Prod.fst heq).symm
      have hx : x = r0.2 := (congrArg Prod.snd heq).symm
      subst hq hx
      have hbody : (rp, row) ∈ dwpL body.children 0 := getRow_val_mem body r rp row hrow
      have : (r0.1, r0.2) ∈ dwpL row.children 0 := by
        simpa using hr0
      exact dwpL_mem_trans body.children 0 rp row r0.1 r0.2 hbody this

theorem getColumn_val_mem (body : Elem) (r c : Int) (p : List Nat) (x : Elem)
    (h : getColumn body r c = .ok (.val (p, x))) : (p, x) ∈ dwpL body.children 0 := by
  unfold getColumn at h
  split at h
  · cases h
  · cases h
  · cases h
  next cols hcols =>
    have hne : cols ≠ [] := getColumns_val_ne_nil body r cols hcols
    have hpos : 0 < cols.length := List.length_pos.mpr hne
    by_cases hgt : c > (cols.length : Int) - 1
    · rw [if_pos hgt] at h
      cases h
    · rw [if_neg hgt] at h
      by_cases heq1 : (c == -1) = true
      · rw [if_pos heq1] at h
        simp only [Except.ok.injEq, Js.val.injEq] at h
        have hmem : cols.getD 0 ([], emptyElem) ∈ cols := by
          rw [List.getD_eq_getElem cols ([], emptyElem) hpos]
          exact List.getElem_mem hpos
        rw [h] at hmem
        exact getColumns_val_mem body r cols hcols p x hmem
      · rw [if_neg heq1] at h
        by_cases hlt : c < -1
        · rw [if_pos hlt] at h
          cases h
        · rw [if_neg hlt] at h
          simp only [Except.ok.injEq, Js.val.injEq] at h
          have hne2 : c ≠ -1 := by simpa using heq1
          have hclt : c.toNat < cols.length := by omega
          have hmem : cols.getD c.toNat ([], emptyElem) ∈ cols := by
            rw [List.getD_eq_getElem cols ([], emptyElem) hclt]
            exact List.getElem_mem hclt
          rw [h] at hmem
          exact getColumns_val_mem body r cols hcols p x hmem

/-- Projection of a traversal entry onto (path, border). -/
def bord (q : List Nat × Elem) : List Nat × String := (q.1, q.2.border)

/-- Pointwise border update at one target path. -/
def updAt (tgt : List Nat) (v : String) (q : List Nat × String) : List Nat × String :=
  if q.1 = tgt then (q.1, v) else q

theorem map_updAt_eq_self (tgt : List Nat) (v : String) (l : List (List Nat × String))
    (h : ∀ q ∈ l, q.1 ≠ tgt) : l.map (updAt tgt v) = l := by
  induction l with
  | nil => rfl
  | cons a l ih =>
    simp only [List.map_cons]
    rw [show updAt tgt v a = a from if_neg (h a (List.mem_cons_self a l)),
      ih (fun q hq => h q (List.mem_cons_of_mem a hq))]

theorem bord_map_pre (k : Nat) (l : List (List Nat × Elem)) :
    (l.map (fun q => (k :: q.1, q.2))).map bord =
      (l.map bord).map (fun q => (k :: q.1, q.2)) := by
  simp only [List.map_map]
  rfl

theorem updAt_pre_comm (k : Nat) (tgt : List Nat) (v : String)
    (l : List (List Nat × String)) :
    (l.map (updAt tgt v)).map (fun q => (k :: q.1, q.2)) =
      (l.map (fun q => (k :: q.1, q.2))).map (updAt (k :: tgt) v) := by
  simp only [List.map_map]
  have hfe : ((fun q : List Nat × String => (k :: q.1, q.2)) ∘ updAt tgt v) =
      (updAt (k :: tgt) v ∘ fun q : List Nat × String => (k :: q.1, q.2)) := by
    funext q
    by_cases hc : q.1 = tgt
    · simp [updAt, hc, Function.comp]
    · have : ¬(k :: q.1 = k :: tgt) := by simp [hc]
      simp [updAt, hc, this, Function.comp]
  rw [hfe]

mutual
theorem bord_modE : ∀ (e : Elem) (p : List Nat) (v : String) (k : Nat),
    (dwpE (modE e p (setBorder v)) k).map bord =
      ((dwpE e k).map bord).map (updAt (k :: p) v)
  | .mk t c d h dis b cs, [], v, k => by
    simp only [modE, setBorder, dwpE, List.map_cons]
    rw [show updAt (k :: []) v (bord ([k], Elem.mk t c d h dis b cs)) = ([k], v) from by
      simp [updAt, bord, Elem.border]]
    rw [show bord ([k], Elem.mk t c d h dis v cs) = ([k], v) from by
      simp [bord, Elem.border]]
    rw [map_updAt_eq_self (k :: []) v (((dwpL cs 0).map (fun q => (k :: q.1, q.2))).map bord) ?_]
    intro q hq
    simp only [List.mem_map] at hq
    obtain ⟨r0, ⟨r, hr, hr1⟩, hq1⟩ := hq
    obtain ⟨j, t2, hjt, _⟩ := dwpL_head cs 0 r hr
    rw [← hq1, ← hr1]
    simp [bord, hjt]
  | .mk t c d h dis b cs, j :: p2, v, k => by
    simp only [modE, dwpE, List.map_cons]
    rw [show updAt (k :: j :: p2) v (bord ([k], Elem.mk t c d h dis b cs)) =
        bord ([k], Elem.mk t c d h dis b cs) from by simp [updAt, bord]]
    rw [show bord ([k], Elem.mk t c d h dis b (modL cs j p2 (setBorder v))) = ([k], b) from by
      simp [bord, Elem.border]]
    rw [show bord ([k], Elem.mk t c d h dis b cs) = ([k], b) from by simp [bord, Elem.border]]
    congr 1
    rw [bord_map_pre k (dwpL (modL cs j p2 (setBorder v)) 0),
      bord_modL cs j p2 v 0,
      show j + 0 = j from rfl,
      updAt_pre_comm k (j :: p2) v ((dwpL cs 0).map bord),
      bord_map_pre k (dwpL cs 0)]
theorem bord_modL : ∀ (cs : ElemList) (i : Nat) (p : List Nat) (v : String) (k : Nat),
    (dwpL (modL cs i p (setBorder v)) k).map bord =
      ((dwpL cs k).map bord).map (updAt ((i + k) :: p) v)
  | .nil, _, _, _, _ => by simp [modL, dwpL]
  | .cons c rest, 0, p, v, k => by
    simp only [modL, dwpL, List.map_append]
    rw [bord_modE c p v k, show (0 : Nat) + k = k from by omega]
    rw [map_updAt_eq_self (k :: p) v ((dwpL rest (k + 1)).map bord) ?_]
    intro q hq
    simp only [List.mem_map] at hq
    obtain ⟨r, hr, hr1⟩ := hq
    obtain ⟨j, t2, hjt, hj⟩ := dwpL_head rest (k + 1) r hr
    rw [← hr1]
    simp only [bord, hjt, ne_eq, List.cons.injEq, not_and]
    intro hjk
    omega
  | .cons c rest, Nat.succ i, p, v, k => by
    simp only [modL, dwpL, List.map_append]
    rw [bord_modL rest i p v (k + 1), show i + (k + 1) = i + 1 + k from by omega]
    rw [map_updAt_eq_self ((i + 1 + k) :: p) v ((dwpE c k).map bord) ?_]
    intro q hq
    simp only [List.mem_map] at hq
    obtain ⟨r, hr, hr1⟩ := hq
    obtain ⟨t2, hjt⟩ := dwpE_head c k r hr
    rw [← hr1]
    simp only [bord, hjt, ne_eq, List.cons.injEq, not_and]
    intro hjk
    omega
end

theorem pbL_setBorderAt (body : Elem) (i : Nat) (p : List Nat) (v : String) :
    pbL (setBorderAt body (i :: p) v) = (pbL body).map (updAt (i :: p) v) := by
  cases body with
  | mk t c d h dis b cs =>
    simp only [pbL, setBorderAt, modE, Elem.children]
    rw [show (fun q : List Nat × Elem => (q.1, q.2.border)) = bord from rfl]
    rw [bord_modL cs i p v 0, show i + 0 = i from rfl]

theorem updAt_fst (tgt : List Nat) (v : String) (q : List Nat × String) :
    (updAt tgt v q).1 = q.1 := by
  unfold updAt
  split <;> rfl

theorem mem_highlightedPaths (body : Elem) (q : List Nat) :
    q ∈ highlightedPaths body ↔ ∃ bs, (q, bs) ∈ pbL body ∧ bs ≠ "" := by
  simp only [highlightedPaths, List.mem_map, List.mem_filter, bne_iff_ne, ne_eq]
  constructor
  · rintro ⟨a, ⟨ha, hb⟩, he⟩
    exact ⟨a.2, by rw [← he]; exact ha, hb⟩
  · rintro ⟨bs, hm, hb⟩
    exact ⟨(q, bs), ⟨hm, hb⟩, rfl⟩

theorem hp_after_set (body1 : Elem) (np : List Nat) (j1 : Nat) (t1 : List Nat)
    (hjt : np = j1 :: t1) (xe : Elem)
    (hmem : (np, xe) ∈ dwpL body1.children 0)
    (hempty : ∀ q, q ∉ highlightedPaths body1) :
    ∀ q, q ∈ highlightedPaths (setBorderAt body1 np "1px solid white") ↔ q = np := by
  intro q
  have hpb : pbL (setBorderAt body1 np "1px solid white") =
      (pbL body1).map (updAt np "1px solid white") := by
    rw [hjt]
    exact pbL_setBorderAt body1 j1 t1 _
  constructor
  · intro hq
    rw [mem_highlightedPaths, hpb] at hq
    obtain ⟨bs, hm, hbs⟩ := hq
    simp only [List.mem_map] at hm
    obtain ⟨a0, ha0, hup⟩ := hm
    by_cases hc : a0.1 = np
    · have h1 : (updAt np "1px solid white" a0).1 = q := by rw [hup]
      rw [updAt_fst] at h1
      rw [← h1, hc]
    · rw [show updAt np "1px solid white" a0 = a0 from if_neg hc] at hup
      exfalso
      apply hempty q
      rw [mem_highlightedPaths]
      exact ⟨bs, by rw [← hup]; exact ha0, hbs⟩
  · intro hqe
    rw [hqe, mem_highlightedPaths, hpb]
    refine ⟨"1px solid white", ?_, by decide⟩
    simp only [List.mem_map]
    refine ⟨(np, xe.border), ?_, ?_⟩
    · unfold pbL
      exact List.mem_map.mpr ⟨(np, xe), hmem, rfl⟩
    · simp [updAt]

theorem hp_cleared (body : Elem) (po : List Nat) (j0 : Nat) (t0 : List Nat)
    (hjt : po = j0 :: t0)
    (hsub : ∀ q ∈ highlightedPaths body, q = po) :
    ∀ q, q ∉ highlightedPaths (setBorderAt body po "") := by
  intro q hq
  rw [mem_highlightedPaths] at hq
  obtain ⟨bs, hm, hbs⟩ := hq
  rw [hjt] at hm
  rw [pbL_setBorderAt body j0 t0 ""] at hm
  simp only [List.mem_map] at hm
  obtain ⟨a0, ha0, hup⟩ := hm
  by_cases hc : a0.1 = j0 :: t0
  · rw [show updAt (j0 :: t0) "" a0 = (a0.1, "") from if_pos hc] at hup
    exact hbs (congrArg Prod.snd hup).symm
  · rw [show updAt (j0 :: t0) "" a0 = a0 from if_neg hc] at hup
    have hq1 : q ∈ highlightedPaths body :=
      (mem_highlightedPaths body q).mpr ⟨bs, by rw [← hup]; exact ha0, hbs⟩
    apply hc
    rw [show a0.1 = q from congrArg Prod.fst hup, hsub q hq1, hjt]

theorem highlightCard_single (body : Elem) (s : NavState) (nr nc : Int)
    (b2 : Elem) (s2 : NavState)
    (hinv : ∀ q ∈ highlightedPaths body, cursorCardPath body s = some q)
    (h : highlightCard body s nr nc = .ok (b2, s2, true)) :
    ∃ p, ∀ q, q ∈ highlightedPaths b2 ↔ q = p := by
  unfold highlightCard at h
  split at h
  · cases h
  next old hold =>
    split at h
    · cases h
    case _ np xnew hnew =>
      simp only [Except.ok.injEq, Prod.mk.injEq] at h
      obtain ⟨hb2, -⟩ := h
      subst hb2
      have hnpmem : (np, xnew) ∈ dwpL (clearOldCard body old).children 0 :=
        getColumn_val_mem _ nr nc np xnew hnew
      obtain ⟨j1, t1, hjt1, -⟩ := dwpL_head _ 0 (np, xnew) hnpmem
      have hempty : ∀ q, q ∉ highlightedPaths (clearOldCard body old) := by
        cases old with
        | val pe =>
          obtain ⟨po, eo⟩ := pe
          have hpomem : (po, eo) ∈ dwpL body.children 0 :=
            getColumn_val_mem body s.row s.col po eo hold
          obtain ⟨j0, t0, hjt0, -⟩ := dwpL_head _ 0 (po, eo) hpomem
          have hccp : cursorCardPath body s = some po := by
            unfold cursorCardPath
            rw [hold]
          have hsub : ∀ q ∈ highlightedPaths body, q = po := by
            intro q hq
            have := hinv q hq
            rw [hccp] at this
            exact (Option.some_inj.mp this).symm
          exact hp_cleared body po j0 t0 hjt0 hsub
        | jsFalse =>
          intro q hq
          have := hinv q hq
          unfold cursorCardPath at this
          rw [hold] at this
          cases this
        | undef =>
          intro q hq
          have := hinv q hq
          unfold cursorCardPath at this
          rw [hold] at this
          cases this
      exact ⟨np, hp_after_set (clearOldCard body old) np j1 t1 hjt1 xnew hnpmem hempty⟩
    next hne =>
      simp only [Except.ok.injEq, Prod.mk.injEq] at h
      exact absurd h.2.2 (by decide)

/-- Claim C7: starting from any document whose highlight state is
consistent with the cursor (every highlighted element, if any, is the
card the cursor currently resolves to), a move whose full target
resolves (it consumed the event) leaves exactly one element highlighted,
namely the new target; every previously-highlighted element other than
the new target has lost its highlight. -/
theorem c7_single_highlight (body : Elem) (s : NavState) (m : Move)
    (b2 : Elem) (s2 : NavState)
    (hinv : ∀ q ∈ highlightedPaths body, cursorCardPath body s = some q)
    (hmove : applyMove body s m = .ok (b2, s2, true)) :
    ∃ p, (∀ q, q ∈ highlightedPaths b2 ↔ q = p) ∧
      ∀ q ∈ highlightedPaths body, q ≠ p → q ∉ highlightedPaths b2 := by
  rcases applyMove_cases body s m b2 s2 true hmove with ⟨-, -, hc⟩ | ⟨nr, nc, hh, -⟩
  · cases hc
  · obtain ⟨p, hp⟩ := highlightCard_single body s nr nc b2 s2 hinv hh
    refine ⟨p, hp, fun q _ hne hq2 => hne ((hp q).mp hq2)⟩

/-- Witness for C7: on the concrete document whose first card is
highlighted with the cursor at (0,0), the move right leaves exactly one
highlighted element. -/
theorem c7_single_highlight_witness :
    ∃ p, (∀ q, q ∈ highlightedPaths (stepObs (bodyC7, ⟨0, 0⟩) .colFwd).1 ↔ q = p) ∧
      ∀ q ∈ highlightedPaths bodyC7, q ≠ p →
        q ∉ highlightedPaths (stepObs (bodyC7, ⟨0, 0⟩) .colFwd).1 :=
  c7_single_highlight bodyC7 ⟨0, 0⟩ .colFwd (stepObs (bodyC7, ⟨0, 0⟩) .colFwd).1
    ⟨0, 1⟩ (by decide) (by decide)
